import Mathlib

/-!
Verification development for the melonJS physics world (`src/dist/melonjs.mjs/physics/world.js`)
and pointer-event dispatch layer (`src/dist/melonjs.mjs/input/pointerevent.js`), v15.1.5.

JavaScript numbers are modelled as rationals (`ℚ`); the claims under study are about
control flow, ordering and algebraic structure, not floating-point rounding.  Mutable
objects are modelled by explicit state passing; observable actions (quadtree operations,
detector invocations, callback invocations, event emissions) are recorded in traces.

Files `physics/body.js`, `physics/quadtree.js`, `physics/bounds.js`, `physics/detector.js`
and `physics/collision.js` are not part of the sources provided under `src/`; where their
behaviour matters, the corresponding definition carries a doc comment starting
`Modelled from the spec:` and follows the specification's own description (§3, §4.1–§4.3).
-/

namespace Melon

/-- A 2-dimensional vector, mirroring `math/vector2.js` values as used by `world.js`
(`gravity`, `body.force`, velocity). -/
structure Vec2 where
  x : ℚ
  y : ℚ
deriving DecidableEq, Repr

/-- The renderable entity owning a body ("ancestor"), with the flags that `World.update`
reads from it (`updateWhenPaused`, `inViewport`, `alwaysUpdate`). -/
structure Ancestor where
  aid : ℕ
  updateWhenPaused : Bool
  inViewport : Bool
  alwaysUpdate : Bool
deriving DecidableEq, Repr

/-- Physics body state, with the fields that `world.js` reads and writes:
`isStatic`, `ignoreGravity`, `gravityScale`, `mass`, `force`, plus the velocity and
position integrated by `body.update` and the owning ancestor. -/
structure Body where
  bid : ℕ
  isStatic : Bool
  ignoreGravity : Bool
  gravityScale : ℚ
  mass : ℚ
  force : Vec2
  vel : Vec2
  pos : Vec2
  ancestor : Ancestor
deriving DecidableEq, Repr

/-- `World.bodyApplyGravity` (world.js lines 147–156):
`if (!body.ignoreGravity && body.gravityScale !== 0) { force.x += (mass * gravity.x) * gravityScale; force.y += (mass * gravity.y) * gravityScale }`. -/
def bodyApplyGravity (gravity : Vec2) (b : Body) : Body :=
  if b.ignoreGravity = false ∧ b.gravityScale ≠ 0 then
    { b with force := ⟨b.force.x + b.mass * gravity.x * b.gravityScale,
                       b.force.y + b.mass * gravity.y * b.gravityScale⟩ }
  else b

/-- Modelled from the spec: `physics/body.js` is not under `src/`.  §4.3: `update(dt)`
"applies accumulated force and mass to update velocity and position via simple explicit
(semi-implicit Euler) integration; returns whether the body's position changed
meaningfully".  Calibrated by §8 property 6: with `gravityScale=1`, `mass=1`,
gravity `(0, 0.98)` and `dt = 1`, `velocity.y` increases by `0.98`. -/
def bodyUpdate (dt : ℚ) (b : Body) : Body × Bool :=
  let vel : Vec2 := ⟨b.vel.x + b.force.x / b.mass * dt, b.vel.y + b.force.y / b.mass * dt⟩
  let pos : Vec2 := ⟨b.pos.x + vel.x * dt, b.pos.y + vel.y * dt⟩
  ({ b with vel := vel, pos := pos }, decide (pos ≠ b.pos))

/-- Observable actions of one `World.update` tick, in program order. -/
inductive Ev
  | clearQuadtree
  | insertContainer
  | applyGravity (bid : ℕ)
  | bodyUpdate (bid : ℕ)
  | markDirty (aid : ℕ)
  | collisions (aid : ℕ)
  | zeroForce (bid : ℕ)
deriving DecidableEq, Repr

/-- The update-eligibility test of `World.update` (world.js line 177–178), in the code's
own polarity: `!(isPaused && (!ancestor.updateWhenPaused)) && (ancestor.inViewport || ancestor.alwaysUpdate)`. -/
def bodyEligible (isPaused : Bool) (a : Ancestor) : Bool :=
  (!(isPaused && !a.updateWhenPaused)) && (a.inViewport || a.alwaysUpdate)

/-- The per-body block of the `World.update` loop (world.js lines 174–191): skip static
bodies; skip ineligible ancestors; otherwise apply gravity, integrate, mark the ancestor
dirty when integration returns `true`, run the detector for the ancestor, zero the force. -/
def bodyTick (gravity : Vec2) (isPaused : Bool) (dt : ℚ) (b : Body) : Body × List Ev :=
  if !b.isStatic then
    if bodyEligible isPaused b.ancestor then
      let b1 := bodyApplyGravity gravity b
      let r := bodyUpdate dt b1
      let dirtyEv := if r.2 then [Ev.markDirty b.ancestor.aid] else []
      ({ r.1 with force := ⟨0, 0⟩ },
        Ev.applyGravity b.bid :: Ev.bodyUpdate b.bid ::
          (dirtyEv ++ [Ev.collisions b.ancestor.aid, Ev.zeroForce b.bid]))
    else (b, [])
  else (b, [])

/-- The `bodies.forEach` loop of `World.update`, iterating the active set in insertion
order and threading each body's state change and emitted actions. -/
def worldUpdateLoop (gravity : Vec2) (isPaused : Bool) (dt : ℚ) :
    List Body → List Body × List Ev
  | [] => ([], [])
  | b :: rest =>
    let r := bodyTick gravity isPaused dt b
    let rs := worldUpdateLoop gravity isPaused dt rest
    (r.1 :: rs.1, r.2 ++ rs.2)

/-- `World.update(dt)` (world.js lines 163–196): clear the quadtree, bulk-insert the
renderable tree (`insertContainer`), then run the body loop.  The trailing
`super.update(dt)` call (rendering-container update) is outside the modelled scope. -/
def worldUpdate (gravity : Vec2) (isPaused : Bool) (dt : ℚ) (bodies : List Body) :
    List Body × List Ev :=
  let r := worldUpdateLoop gravity isPaused dt bodies
  (r.1, Ev.clearQuadtree :: Ev.insertContainer :: r.2)

/-- The skip condition exactly as claim C1 words it: skip when
"(paused and the ancestor is not updateWhenPaused) or (the ancestor is not inViewport
and not alwaysUpdate)". -/
def claimSkips (isPaused : Bool) (b : Body) : Bool :=
  (isPaused && !b.ancestor.updateWhenPaused) || (!b.ancestor.inViewport && !b.ancestor.alwaysUpdate)

/-- The per-body action sequence exactly as claim C1 describes it. -/
def claimBodyEvents (gravity : Vec2) (isPaused : Bool) (dt : ℚ) (b : Body) : List Ev :=
  if b.isStatic then []
  else if claimSkips isPaused b then []
  else
    [Ev.applyGravity b.bid, Ev.bodyUpdate b.bid] ++
      (if (bodyUpdate dt (bodyApplyGravity gravity b)).2 then [Ev.markDirty b.ancestor.aid] else []) ++
      [Ev.collisions b.ancestor.aid, Ev.zeroForce b.bid]

end Melon

namespace Melon

/-- The events of a `bodyTick` are the claim's per-body events. -/
theorem bodyTick_events (gravity : Vec2) (isPaused : Bool) (dt : ℚ) (b : Body) :
    (bodyTick gravity isPaused dt b).2 = claimBodyEvents gravity isPaused dt b := by
  unfold bodyTick claimBodyEvents bodyEligible claimSkips
  cases hs : b.isStatic <;> simp
  cases hp : isPaused <;>
    cases hw : b.ancestor.updateWhenPaused <;>
      cases hv : b.ancestor.inViewport <;>
        cases ha : b.ancestor.alwaysUpdate <;> simp

/-- The trace of the body loop is the concatenation of the per-body claim events. -/
theorem worldUpdateLoop_events (gravity : Vec2) (isPaused : Bool) (dt : ℚ) (bs : List Body) :
    (worldUpdateLoop gravity isPaused dt bs).2 = bs.flatMap (claimBodyEvents gravity isPaused dt) := by
  induction bs with
  | nil => rfl
  | cons b rest ih =>
    simp only [worldUpdateLoop, List.flatMap_cons, ← ih, bodyTick_events]

/-- The claim-side skip condition is the Boolean negation of the code's eligibility test. -/
theorem claimSkips_eq_not_eligible (isPaused : Bool) (b : Body) :
    claimSkips isPaused b = !bodyEligible isPaused b.ancestor := by
  unfold claimSkips bodyEligible
  cases isPaused <;>
    cases b.ancestor.updateWhenPaused <;>
      cases b.ancestor.inViewport <;>
        cases b.ancestor.alwaysUpdate <;> rfl

/-- A `collisions` action appears among a body's claim events exactly for a non-static,
eligible body, and names that body's ancestor. -/
theorem collisions_mem_claimBodyEvents (gravity : Vec2) (isPaused : Bool) (dt : ℚ)
    (b : Body) (a : ℕ) :
    Ev.collisions a ∈ claimBodyEvents gravity isPaused dt b ↔
      b.isStatic = false ∧ bodyEligible isPaused b.ancestor = true ∧ a = b.ancestor.aid := by
  unfold claimBodyEvents
  rw [claimSkips_eq_not_eligible]
  cases hs : b.isStatic <;> cases he : bodyEligible isPaused b.ancestor <;>
    cases hd : (bodyUpdate dt (bodyApplyGravity gravity b)).2 <;> simp [hd]

/-- A non-static eligible body's claim events contain its `body.update` action. -/
theorem bodyUpdate_mem_claimBodyEvents (gravity : Vec2) (isPaused : Bool) (dt : ℚ)
    (b : Body) (hs : b.isStatic = false) (he : bodyEligible isPaused b.ancestor = true) :
    Ev.bodyUpdate b.bid ∈ claimBodyEvents gravity isPaused dt b := by
  unfold claimBodyEvents
  rw [claimSkips_eq_not_eligible, hs, he]
  cases hd : (bodyUpdate dt (bodyApplyGravity gravity b)).2 <;> simp [hd]

/-- C1.  `World.update(dt)` executes one tick as a strictly ordered state machine:
first it clears the quadtree, then bulk-inserts the renderable tree via
`insertContainer`, then for each body of the active set, in order and in one pass,
it skips the body if static, skips it if (paused and the ancestor is not
`updateWhenPaused`) or (the ancestor is neither `inViewport` nor `alwaysUpdate`),
and otherwise applies gravity, calls `body.update(dt)`, marks the ancestor dirty when
that returns true, runs `Detector.collisions` for the ancestor, and zeroes the body's
force accumulator — the whole tick trace is exactly that sequence. -/
theorem world_update_strict_order (gravity : Vec2) (isPaused : Bool) (dt : ℚ) (bs : List Body) :
    (worldUpdate gravity isPaused dt bs).2 =
      Ev.clearQuadtree :: Ev.insertContainer :: bs.flatMap (claimBodyEvents gravity isPaused dt) := by
  simp only [worldUpdate, worldUpdateLoop_events]

end Melon

namespace Melon

/-- C3.  During a `World.update` tick, `Detector.collisions` is never initiated for a
static body's ancestor: a tick over only-static bodies performs zero detector
invocations, and every detector invocation of a tick comes from a non-static body that
is eligible and integrated (`body.update` called) this same tick. -/
theorem static_bodies_no_detector (gravity : Vec2) (isPaused : Bool) (dt : ℚ)
    (bs : List Body) :
    ((∀ b ∈ bs, b.isStatic = true) →
        ∀ a, Ev.collisions a ∉ (worldUpdate gravity isPaused dt bs).2) ∧
    (∀ a, Ev.collisions a ∈ (worldUpdate gravity isPaused dt bs).2 →
        ∃ b ∈ bs, b.isStatic = false ∧ bodyEligible isPaused b.ancestor = true ∧
          a = b.ancestor.aid ∧
          Ev.bodyUpdate b.bid ∈ (worldUpdate gravity isPaused dt bs).2) := by
  have htr : (worldUpdate gravity isPaused dt bs).2 =
      Ev.clearQuadtree :: Ev.insertContainer ::
        bs.flatMap (claimBodyEvents gravity isPaused dt) := by
    simp only [worldUpdate, worldUpdateLoop_events]
  constructor
  · intro hall a hmem
    rw [htr] at hmem
    simp only [List.mem_cons, List.mem_flatMap] at hmem
    rcases hmem with h | h | ⟨b, hb, hbe⟩
    · exact Ev.noConfusion h
    · exact Ev.noConfusion h
    · rcases (collisions_mem_claimBodyEvents gravity isPaused dt b a).mp hbe with ⟨hsf, _, _⟩
      rw [hall b hb] at hsf
      exact Bool.noConfusion hsf
  · intro a hmem
    rw [htr] at hmem
    simp only [List.mem_cons, List.mem_flatMap] at hmem
    rcases hmem with h | h | ⟨b, hb, hbe⟩
    · exact absurd h (by simp)
    · exact absurd h (by simp)
    · rcases (collisions_mem_claimBodyEvents gravity isPaused dt b a).mp hbe with ⟨hsf, he, ha⟩
      refine ⟨b, hb, hsf, he, ha, ?_⟩
      rw [htr]
      simp only [List.mem_cons, List.mem_flatMap]
      exact Or.inr (Or.inr ⟨b, hb, bodyUpdate_mem_claimBodyEvents gravity isPaused dt b hsf he⟩)

/-- A concrete ancestor that is eligible for update (in viewport, game not paused). -/
def testAncestor : Ancestor := ⟨0, false, true, false⟩

/-- A concrete static body. -/
def staticBody : Body :=
  ⟨7, true, false, 1, 1, ⟨0, 0⟩, ⟨0, 0⟩, ⟨0, 0⟩, testAncestor⟩

/-- Witness for C3: instantiated on a world whose only body is static, no detector
invocation occurs in the tick. -/
theorem static_bodies_no_detector_witness :
    Ev.collisions 0 ∉ (worldUpdate ⟨0, 49/50⟩ false 1 [staticBody]).2 :=
  (static_bodies_no_detector ⟨0, 49/50⟩ false 1 [staticBody]).1 (by decide) 0

end Melon

namespace Melon

/-- A concrete dynamic body: `gravityScale = 1`, `mass = 1`, zero force and velocity. -/
def unitBody : Body := ⟨1, false, false, 1, 1, ⟨0, 0⟩, ⟨0, 0⟩, ⟨0, 0⟩, testAncestor⟩

/-- A concrete body with `gravityScale = 0`, otherwise like `unitBody`. -/
def zeroScaleBody : Body := { unitBody with bid := 2, gravityScale := 0 }

/-- C2 counterexample: the world gravity vector is a public settable field (world.js
line 57, default `(0, 0.98)`).  With gravity set to `(0, 0)`, gravity application
leaves the force of a body with `ignoreGravity = false` and `gravityScale = 1`
unchanged, refuting the claimed "no-op exactly when `ignoreGravity` is true or
`gravityScale === 0`" biconditional. -/
theorem gravity_noop_not_iff_counterexample :
    (bodyApplyGravity ⟨0, 0⟩ unitBody).force = unitBody.force ∧
      unitBody.ignoreGravity = false ∧ unitBody.gravityScale ≠ 0 := by
  refine ⟨?_, rfl, by norm_num [unitBody]⟩
  have h : unitBody.ignoreGravity = false ∧ unitBody.gravityScale ≠ 0 :=
    ⟨rfl, by norm_num [unitBody]⟩
  rw [bodyApplyGravity, if_pos h]
  simp

/-- C2 amended: gravity application leaves a body's force unchanged exactly when
`ignoreGravity` is true, or `gravityScale === 0`, or the added contribution
`mass * gravity * gravityScale` is zero on both axes (e.g. zero gravity or zero mass);
otherwise it adds `mass * gravity * gravityScale` to the force on each axis.
Concretely, with `gravityScale = 1`, `mass = 1` and gravity `(0, 0.98)`, one gravity
application gains `0.98` of downward force and one `update(dt = 1)` tick gains `0.98`
of `velocity.y`, while a body with `gravityScale = 0` gains neither. -/
theorem gravity_apply_amended (g : Vec2) (b : Body) :
    ((bodyApplyGravity g b).force = b.force ↔
      (b.ignoreGravity = true ∨ b.gravityScale = 0 ∨
        (b.mass * g.x * b.gravityScale = 0 ∧ b.mass * g.y * b.gravityScale = 0))) ∧
    (b.ignoreGravity = false → b.gravityScale ≠ 0 →
      (bodyApplyGravity g b).force.x = b.force.x + b.mass * g.x * b.gravityScale ∧
      (bodyApplyGravity g b).force.y = b.force.y + b.mass * g.y * b.gravityScale) ∧
    (bodyApplyGravity ⟨0, 49/50⟩ unitBody).force.y = 49/50 ∧
    ((worldUpdate ⟨0, 49/50⟩ false 1 [unitBody]).1.map Body.vel) = [⟨0, 49/50⟩] ∧
    (bodyApplyGravity ⟨0, 49/50⟩ zeroScaleBody).force = zeroScaleBody.force ∧
    ((worldUpdate ⟨0, 49/50⟩ false 1 [zeroScaleBody]).1.map Body.vel) = [⟨0, 0⟩] := by
  have hu : unitBody.ignoreGravity = false ∧ unitBody.gravityScale ≠ 0 :=
    ⟨rfl, by norm_num [unitBody]⟩
  refine ⟨?_, ?_, ?g3, ?g4, ?g5, ?g6⟩
  case g3 =>
    rw [bodyApplyGravity, if_pos hu]
    norm_num [unitBody]
  case g4 =>
    norm_num [worldUpdate, worldUpdateLoop, bodyTick, bodyEligible, bodyApplyGravity,
      bodyUpdate, unitBody, testAncestor, Vec2.mk.injEq]
  case g5 =>
    rw [bodyApplyGravity, if_neg]
    norm_num [zeroScaleBody]
  case g6 =>
    norm_num [worldUpdate, worldUpdateLoop, bodyTick, bodyEligible, bodyApplyGravity,
      bodyUpdate, zeroScaleBody, unitBody, testAncestor, Vec2.mk.injEq]
  · unfold bodyApplyGravity
    by_cases h1 : b.ignoreGravity = false
    · by_cases h2 : b.gravityScale = 0
      · rw [if_neg (by simp [h2])]
        simp [h2]
      · rw [if_pos ⟨h1, h2⟩]
        cases hb : b.force with
        | mk fx fy =>
          simp [hb, Vec2.mk.injEq, h1, h2, add_right_eq_self]
    · have h1' : b.ignoreGravity = true := by
        revert h1; cases b.ignoreGravity <;> simp
      rw [if_neg (by simp [h1'])]
      simp [h1']
  · intro h1 h2
    rw [bodyApplyGravity, if_pos ⟨h1, h2⟩]
    exact ⟨rfl, rfl⟩

/-- Witness for the amended C2 theorem: applied to `unitBody` under gravity
`(0, 0.98)`, the per-axis force increment is realized. -/
theorem gravity_apply_amended_witness :
    (bodyApplyGravity ⟨0, 49/50⟩ unitBody).force.y =
      unitBody.force.y + unitBody.mass * (49/50 : ℚ) * unitBody.gravityScale :=
  ((gravity_apply_amended ⟨0, 49/50⟩ unitBody).2.1 rfl (by decide)).2

end Melon

namespace Melon

/-- An axis-aligned bounds value (min/max corners), as §3 describes `Bounds`
(`physics/bounds.js` is not under `src/`). -/
structure BoundsR where
  minX : ℚ
  minY : ℚ
  maxX : ℚ
  maxY : ℚ
deriving DecidableEq, Repr

/-- Modelled from the spec: `physics/bounds.js` is not under `src/`.  §4.1 —
`contains(x, y)` is the inclusive point-in-rect test against the min/max corners. -/
def containsPt (b : BoundsR) (x y : ℚ) : Bool :=
  decide (b.minX ≤ x) && decide (x ≤ b.maxX) && decide (b.minY ≤ y) && decide (y ≤ b.maxY)

/-- Modelled from the spec: `physics/quadtree.js` is not under `src/`.  §3 — a quadtree
node is either a leaf holding inserted items or an internal node with exactly four
child quadrants. -/
inductive QTree
  | leaf (items : List ℕ)
  | node (nw ne sw se : QTree)
deriving DecidableEq, Repr

/-- Quadtree state: the region it covers plus its root node. -/
structure QuadTreeState where
  region : BoundsR
  root : QTree
deriving DecidableEq, Repr

/-- Modelled from the spec: `physics/quadtree.js` is not under `src/`.  §4.2 —
`clear(bounds?)` "resets to a single empty leaf covering `bounds` (or the previous
region if omitted)". -/
def qtClear (q : QuadTreeState) (bounds : Option BoundsR) : QuadTreeState :=
  { region := bounds.getD q.region, root := QTree.leaf [] }

/-- World container state for the lifecycle operations of `world.js`: the broadphase
quadtree, the active body set (a JS `Set`, insertion-ordered and reference-unique,
modelled as a duplicate-free list), and the container bounds (`this.getBounds()`). -/
structure WorldS where
  broadphase : QuadTreeState
  bodies : List Body
  bounds : BoundsR
deriving DecidableEq, Repr

/-- `World.addBody` (world.js lines 124–128): `this.bodies.add(body)`.  JS `Set.add`
is a no-op when the same element is already present, else appends it. -/
def addBody (w : WorldS) (b : Body) : WorldS :=
  if b ∈ w.bodies then w else { w with bodies := w.bodies ++ [b] }

/-- `World.removeBody` (world.js lines 136–140): `this.bodies.delete(body)`. -/
def removeBody (w : WorldS) (b : Body) : WorldS :=
  { w with bodies := w.bodies.erase b }

/-- `World.reset` (world.js lines 103–116): `this.broadphase.clear()` (region kept),
then the parent `Container.reset`, then `this.bodies.clear()`.  The anchor-point reset
and the parent container reset are outside the modelled scope. -/
def worldReset (w : WorldS) : WorldS :=
  { w with broadphase := qtClear w.broadphase none, bodies := [] }

/-- The `LEVEL_LOADED` handler installed by the `World` constructor (world.js lines
94–97): `this.broadphase.clear(this.getBounds())`, and nothing else. -/
def levelLoadedHandler (w : WorldS) : WorldS :=
  { w with broadphase := qtClear w.broadphase (some w.bounds) }

/-- C4.  `World.reset` clears both the quadtree and the active body set, whereas the
`LEVEL_LOADED` handler resizes/clears only the quadtree to the current world bounds
and leaves the active body set unchanged (frame condition: `World.bodies` after a
`LEVEL_LOADED` event equals `World.bodies` before it). -/
theorem reset_and_level_loaded_effects (w : WorldS) :
    (levelLoadedHandler w).bodies = w.bodies ∧
    (levelLoadedHandler w).broadphase = { region := w.bounds, root := QTree.leaf [] } ∧
    (worldReset w).bodies = [] ∧
    (worldReset w).broadphase = { region := w.broadphase.region, root := QTree.leaf [] } :=
  ⟨rfl, rfl, rfl, rfl⟩

/-- C5.  The active body collection enforces uniqueness: `addBody` twice leaves the
set identical to `addBody` once (idempotent, no duplicate entry, the body is present),
and `addBody` followed by `removeBody` leaves the body absent. -/
theorem addBody_idempotent_removeBody_absent (w : WorldS) (b : Body)
    (h : w.bodies.Nodup) :
    addBody (addBody w b) b = addBody w b ∧
    (addBody w b).bodies.Nodup ∧
    b ∈ (addBody w b).bodies ∧
    b ∉ (removeBody (addBody w b) b).bodies := by
  have hmem : b ∈ (addBody w b).bodies := by
    unfold addBody
    by_cases hb : b ∈ w.bodies
    · rw [if_pos hb]; exact hb
    · rw [if_neg hb]; simp
  have hnd : (addBody w b).bodies.Nodup := by
    unfold addBody
    by_cases hb : b ∈ w.bodies
    · rw [if_pos hb]; exact h
    · rw [if_neg hb]
      simp [List.nodup_append, h, hb]
  refine ⟨?_, hnd, hmem, ?_⟩
  · by_cases hb : b ∈ w.bodies
    · have h1 : addBody w b = w := by rw [addBody, if_pos hb]
      rw [h1, h1]
    · have h1 : addBody w b = { w with bodies := w.bodies ++ [b] } := by
        rw [addBody, if_neg hb]
      rw [h1, addBody, if_pos (by simp)]
  · unfold removeBody
    intro hc
    exact ((List.Nodup.mem_erase_iff hnd).mp hc).1 rfl

/-- Witness for C5 at a concrete world and body. -/
theorem addBody_idempotent_removeBody_absent_witness :
    addBody (addBody ⟨⟨⟨0, 0, 1, 1⟩, QTree.leaf []⟩, [], ⟨0, 0, 1, 1⟩⟩ staticBody) staticBody =
      addBody ⟨⟨⟨0, 0, 1, 1⟩, QTree.leaf []⟩, [], ⟨0, 0, 1, 1⟩⟩ staticBody :=
  (addBody_idempotent_removeBody_absent ⟨⟨⟨0, 0, 1, 1⟩, QTree.leaf []⟩, [], ⟨0, 0, 1, 1⟩⟩
    staticBody List.nodup_nil).1

end Melon

namespace Melon

/-- The `bodies` accessor: world.js line 76 declares `this.bodies = new Set()` as a
plain public property (no getter, no copy), so the expression `world.bodies` evaluates
to the world's own mutable `Set` object. -/
def bodiesAccessor (w : WorldS) : List Body := w.bodies

/-- The external expression `world.bodies.add(b)`: `Set.prototype.add` applied to the
set obtained through the public `bodies` property, which mutates the world's own set
in place (no method of the `World` class is involved). -/
def setAddViaBodiesAccessor (w : WorldS) (b : Body) : WorldS :=
  { w with bodies := if b ∈ bodiesAccessor w then bodiesAccessor w
                     else bodiesAccessor w ++ [b] }

/-- An empty concrete world. -/
def emptyWorld : WorldS := ⟨⟨⟨0, 0, 1, 1⟩, QTree.leaf []⟩, [], ⟨0, 0, 1, 1⟩⟩

/-- C6 counterexample: an external caller evaluating `world.bodies.add(b)` through the
`World.bodies` accessor alters the active set's membership without calling `addBody`,
`removeBody` or `reset`, refuting "not externally mutable". -/
theorem bodies_externally_mutable_counterexample :
    staticBody ∉ bodiesAccessor emptyWorld ∧
    staticBody ∈ bodiesAccessor (setAddViaBodiesAccessor emptyWorld staticBody) := by
  constructor
  · simp [bodiesAccessor, emptyWorld]
  · simp [bodiesAccessor, setAddViaBodiesAccessor, emptyWorld]

/-- Gravity application does not change a body's identity. -/
theorem bodyApplyGravity_bid (g : Vec2) (b : Body) :
    (bodyApplyGravity g b).bid = b.bid := by
  unfold bodyApplyGravity
  split <;> rfl

/-- A tick step does not change a body's identity. -/
theorem bodyTick_bid (g : Vec2) (p : Bool) (dt : ℚ) (b : Body) :
    (bodyTick g p dt b).1.bid = b.bid := by
  unfold bodyTick
  split
  · split
    · show (bodyApplyGravity g b).bid = b.bid
      exact bodyApplyGravity_bid g b
    · rfl
  · rfl

/-- The update loop preserves the identities of the member bodies. -/
theorem worldUpdateLoop_bids (g : Vec2) (p : Bool) (dt : ℚ) (bs : List Body) :
    (worldUpdateLoop g p dt bs).1.map Body.bid = bs.map Body.bid := by
  induction bs with
  | nil => rfl
  | cons x rest ih =>
    simp only [worldUpdateLoop, List.map_cons, bodyTick_bid, ih]

/-- C6 amended: `World.bodies` is read-accessible, and the `World` class itself changes
its membership only through `addBody`, `removeBody` and `reset` — the level-load
handler leaves it untouched and the update tick preserves the member bodies (their
identities) — but `bodies` is a plain public mutable `Set`, so an external caller can
alter its membership directly through the accessor. -/
theorem bodies_accessor_amended (w : WorldS) (g : Vec2) (p : Bool) (dt : ℚ) (b : Body) :
    (levelLoadedHandler w).bodies = w.bodies ∧
    (worldUpdate g p dt w.bodies).1.map Body.bid = w.bodies.map Body.bid ∧
    (addBody w b).bodies = (if b ∈ w.bodies then w.bodies else w.bodies ++ [b]) ∧
    (removeBody w b).bodies = w.bodies.erase b ∧
    (worldReset w).bodies = [] ∧
    (b ∉ bodiesAccessor w → b ∈ bodiesAccessor (setAddViaBodiesAccessor w b)) := by
  refine ⟨rfl, ?_, ?_, rfl, rfl, ?_⟩
  · exact worldUpdateLoop_bids g p dt w.bodies
  · unfold addBody
    by_cases hb : b ∈ w.bodies
    · rw [if_pos hb, if_pos hb]
    · rw [if_neg hb, if_neg hb]
  · intro hb
    simp only [bodiesAccessor] at hb
    simp only [setAddViaBodiesAccessor, bodiesAccessor]
    rw [if_neg hb]
    simp

/-- Witness for the amended C6 theorem at a concrete world and body. -/
theorem bodies_accessor_amended_witness :
    staticBody ∈ bodiesAccessor (setAddViaBodiesAccessor emptyWorld staticBody) :=
  (bodies_accessor_amended emptyWorld ⟨0, 0⟩ false 1 staticBody).2.2.2.2.2
    (by simp [bodiesAccessor, emptyWorld])

end Melon

namespace Melon

/-- A JavaScript number as relevant to configuration validation: finite, or one of the
infinities. -/
inductive JsNum
  | fin (q : ℚ)
  | posInf
  | negInf
deriving DecidableEq, Repr

/-- Finiteness of a `JsNum`. -/
def JsNum.isFinite : JsNum → Bool
  | .fin _ => true
  | _ => false

/-- Configuration stored by the quadtree constructor. -/
structure QuadTreeConfig where
  x : JsNum
  y : JsNum
  width : JsNum
  height : JsNum
  maxChildren : ℕ
  maxDepth : ℕ
deriving DecidableEq, Repr

/-- Modelled from the spec: `physics/quadtree.js` is not under `src/`.  Its constructor
stores the given region and configuration; no constructor-time validation is modelled,
because `world.js` line 28 defaults the world bounds to `Infinity × Infinity` and line
82 passes exactly those bounds to `new QuadTree(...)` as the normal construction path
(the region is only later resized to level bounds by the `LEVEL_LOADED` handler), so
non-finite bounds are the constructor's default input, not a rejected one. -/
def quadTreeConstruct (x y width height : JsNum) (maxChildren maxDepth : ℕ) :
    Except String QuadTreeConfig :=
  Except.ok ⟨x, y, width, height, maxChildren, maxDepth⟩

/-- The observable result of the `World` constructor. -/
structure WorldInit where
  x : JsNum
  y : JsNum
  width : JsNum
  height : JsNum
  gravity : Vec2
  broadphase : QuadTreeConfig
deriving DecidableEq, Repr

/-- The `World` constructor (world.js lines 28–98): stores position and size, sets
gravity `(0, 0.98)`, and builds the broadphase quadtree over the (cloned) world bounds
with `collision.maxChildren` / `collision.maxDepth`.  The constructor body contains no
validation and no throw on any path. -/
def worldConstruct (x y width height : JsNum) (maxChildren maxDepth : ℕ) :
    Except String WorldInit :=
  (quadTreeConstruct x y width height maxChildren maxDepth).map
    fun qt => ⟨x, y, width, height, ⟨0, 49/50⟩, qt⟩

/-- The default construction `new World()`: `x = 0, y = 0, width = Infinity,
height = Infinity` (world.js line 28). -/
def worldConstructDefault (maxChildren maxDepth : ℕ) : Except String WorldInit :=
  worldConstruct (.fin 0) (.fin 0) .posInf .posInf maxChildren maxDepth

/-- C7 counterexample: the default `new World()` configuration has non-finite bounds,
yet construction succeeds without reporting any error — there is no fast failure at
World/QuadTree construction time for this invalid configuration. -/
theorem construct_no_fail_fast_counterexample :
    (worldConstructDefault 8 4).isOk = true ∧ JsNum.posInf.isFinite = false :=
  ⟨rfl, rfl⟩

/-- C7 amended: World/QuadTree construction performs no configuration validation at
all — every configuration, including the default non-finite `Infinity × Infinity`
bounds and any `maxChildren`/`maxDepth` values, constructs successfully without
reporting an error, so invalid configurations are not failed fast at construction and
a subsequent tick runs under whatever configuration was stored. -/
theorem construct_never_fails (x y width height : JsNum) (mc md : ℕ) :
    worldConstruct x y width height mc md =
      Except.ok ⟨x, y, width, height, ⟨0, 49/50⟩, ⟨x, y, width, height, mc, md⟩⟩ :=
  rfl

end Melon

namespace Melon

/-- A callback registered for a pointer event: an identifier plus whether invoking it
returns the literal `false` (`callback(pointer) === false` stops propagation,
pointerevent.js line 250). -/
structure Callback where
  cid : ℕ
  consumes : Bool
deriving DecidableEq, Repr

/-- A registrable region (a `Rect|Polygon|Line|Ellipse` in the source): its identity,
the flags read by `dispatchEvent`, and its hit-test bounds (`region.getBounds()`). -/
structure Region where
  rid : ℕ
  isKinematic : Bool
  isFloating : Bool
  bounds : BoundsR
deriving DecidableEq, Repr

/-- A per-region `eventHandlers` entry (pointerevent.js lines 682–686): the region, a
table event-type → callback array, and the currently associated `pointerId`. -/
structure Handlers where
  region : Region
  callbacks : List (String × List Callback)
  pointerId : Option ℕ
deriving DecidableEq, Repr

/-- Property lookup in a `callbacks` table (`handlers.callbacks[type]`). -/
def cbGet (c : List (String × List Callback)) (t : String) : Option (List Callback) :=
  (c.find? fun p => decide (p.1 = t)).map Prod.snd

/-- Property write in a `callbacks` table. -/
def cbSet (c : List (String × List Callback)) (t : String) (l : List Callback) :
    List (String × List Callback) :=
  if (c.find? fun p => decide (p.1 = t)).isSome then
    c.map fun p => if p.1 = t then (t, l) else p
  else c ++ [(t, l)]

/-- Property deletion in a `callbacks` table (`delete handlers.callbacks[type]`). -/
def cbDelete (c : List (String × List Callback)) (t : String) :
    List (String × List Callback) :=
  c.filter fun p => decide (p.1 ≠ t)

/-- The `eventHandlers` map (pointerevent.js line 29), keyed by region. -/
abbrev HandlerMap := List (Region × Handlers)

/-- `eventHandlers.has(region)`. -/
def mapHas (m : HandlerMap) (r : Region) : Bool :=
  m.any fun p => decide (p.1 = r)

/-- `eventHandlers.get(region)`. -/
def mapGet (m : HandlerMap) (r : Region) : Option Handlers :=
  (m.find? fun p => decide (p.1 = r)).map Prod.snd

/-- `eventHandlers.set(region, handlers)` — also models in-place mutation of the
handlers object obtained from `get`, by writing the updated value back. -/
def mapSet (m : HandlerMap) (r : Region) (h : Handlers) : HandlerMap :=
  if mapHas m r then m.map fun p => if p.1 = r then (r, h) else p
  else m ++ [(r, h)]

/-- `eventHandlers.delete(region)`. -/
def mapDelete (m : HandlerMap) (r : Region) : HandlerMap :=
  m.filter fun p => decide (p.1 ≠ r)

/-- Internal event-name family constants (pointerevent.js lines 44–51). -/
def WHEEL : List String := ["wheel"]

/-- `POINTER_MOVE` family. -/
def POINTER_MOVE : List String := ["pointermove", "mousemove", "touchmove"]

/-- `POINTER_DOWN` family. -/
def POINTER_DOWN : List String := ["pointerdown", "mousedown", "touchstart"]

/-- `POINTER_UP` family. -/
def POINTER_UP : List String := ["pointerup", "mouseup", "touchend"]

/-- `POINTER_CANCEL` family. -/
def POINTER_CANCEL : List String := ["pointercancel", "mousecancel", "touchcancel"]

/-- `POINTER_ENTER` family. -/
def POINTER_ENTER : List String := ["pointerenter", "mouseenter", "touchenter"]

/-- `POINTER_OVER` family. -/
def POINTER_OVER : List String := ["pointerover", "mouseover", "touchover"]

/-- `POINTER_LEAVE` family. -/
def POINTER_LEAVE : List String := ["pointerleave", "mouseleave", "touchleave"]

/-- The list of standard pointer event types (pointerevent.js lines 54–63). -/
def pointerEventList : List String :=
  ["wheel", "pointermove", "pointerdown", "pointerup", "pointercancel",
   "pointerenter", "pointerover", "pointerleave"]

/-- `pointerEventMap` (pointerevent.js lines 88–97). -/
def pointerEventMap (t : String) : List String :=
  if t = "wheel" then WHEEL
  else if t = "pointermove" then POINTER_MOVE
  else if t = "pointerdown" then POINTER_DOWN
  else if t = "pointerup" then POINTER_UP
  else if t = "pointercancel" then POINTER_CANCEL
  else if t = "pointerenter" then POINTER_ENTER
  else if t = "pointerover" then POINTER_OVER
  else if t = "pointerleave" then POINTER_LEAVE
  else []

/-- `findActiveEvent` (pointerevent.js lines 218–225): the first member of the family
present in the active event list. -/
def findActiveEvent (active eventTypes : List String) : Option String :=
  eventTypes.find? fun e => active.contains e

/-- `findAllActiveEvents` (pointerevent.js lines 230–240): the members of the family
present in the active event list, in family order. -/
def findAllActiveEvents (active eventTypes : List String) : List String :=
  eventTypes.filter fun e => active.contains e

/-- A normalized pointer (`Pointer` object) as consumed by `dispatchEvent`: its event
type, normalization flag, originating event timestamp, pointer id and the translated
coordinates set by `Pointer.setEvent`. -/
structure PEvent where
  typ : String
  isNormalized : Bool
  timeStamp : Option ℚ
  pointerId : ℕ
  gameScreenX : ℚ
  gameScreenY : ℚ
  gameWorldX : ℚ
  gameWorldY : ℚ
deriving DecidableEq, Repr

/-- Observable actions of `dispatchEvent`: the global `POINTERMOVE` emission and the
invocation of a registered callback (region id, callback id, whether it returned
`false`). -/
inductive DEv
  | pointerMoveEmit (pid : ℕ)
  | invoke (rid cid : ℕ) (consumed : Bool)
deriving DecidableEq, Repr

/-- The pointer's game-x coordinate for a region (pointerevent.js lines 309–315):
screen coordinates for floating regions, world coordinates otherwise. -/
def gameX (e : PEvent) (r : Region) : ℚ :=
  if r.isFloating then e.gameScreenX else e.gameWorldX

/-- The pointer's game-y coordinate for a region. -/
def gameY (e : PEvent) (r : Region) : ℚ :=
  if r.isFloating then e.gameScreenY else e.gameWorldY

/-- The callback loop of `triggerEvent` (pointerevent.js line 249): iterate the
callback array from its last element to its first, stopping at the first callback that
returns `false`; takes the already-reversed array. -/
def runCallbacks (rid : ℕ) : List Callback → List DEv × Bool
  | [] => ([], false)
  | c :: rest =>
    if c.consumes then ([DEv.invoke rid c.cid true], true)
    else
      let r := runCallbacks rid rest
      (DEv.invoke rid c.cid false :: r.1, r.2)

/-- `triggerEvent(handlers, type, pointer, pointerId)` (pointerevent.js lines 245–257):
when the handlers hold callbacks for `type`, set `handlers.pointerId` and run the
callbacks from the last registered to the first; returns `true` when one returned
`false`.  The `type` argument may be absent (`findActiveEvent` found none). -/
def triggerEvent (hs : Handlers) (t : Option String) (pid : Option ℕ) :
    Handlers × List DEv × Bool :=
  match t with
  | none => (hs, [], false)
  | some ty =>
    match cbGet hs.callbacks ty with
    | none => (hs, [], false)
    | some cbs =>
      let r := runCallbacks hs.region.rid cbs.reverse
      ({ hs with pointerId := pid }, r.1, r.2)

/-- The leading leave/enter branch of the move case (pointerevent.js lines 332–345):
moved out of bounds with this pointer triggers the `POINTER_LEAVE` callbacks; no
current pointer and moved inside the bounds triggers the `POINTER_ENTER` callbacks. -/
def moveFirstTrigger (active : List String) (e : PEvent) (hs : Handlers)
    (eventInBounds : Bool) : Handlers × List DEv × Bool :=
  if hs.pointerId = some e.pointerId ∧ eventInBounds = false then
    triggerEvent hs (findActiveEvent active POINTER_LEAVE) none
  else if hs.pointerId = none ∧ eventInBounds = true then
    triggerEvent hs (findActiveEvent active POINTER_ENTER) (some e.pointerId)
  else (hs, [], false)

/-- The move case of the switch (pointerevent.js lines 328–352): leave/enter handling,
then, when nothing stopped propagation and the pointer is in bounds, the
`POINTER_MOVE` callbacks themselves. -/
def switchMove (active : List String) (e : PEvent) (hs : Handlers)
    (eventInBounds : Bool) : Handlers × List DEv × Bool :=
  let r1 := moveFirstTrigger active e hs eventInBounds
  if r1.2.2 then (r1.1, r1.2.1, true)
  else if eventInBounds then
    let r2 := triggerEvent r1.1 (some e.typ) (some e.pointerId)
    (r2.1, r1.2.1 ++ r2.2.1, r2.2.2)
  else (r1.1, r1.2.1, false)

/-- The switch on `pointer.type` (pointerevent.js lines 327–392): move, up, cancel,
and the default case (`POINTER_DOWN` and `WHEEL` among others), which triggers the
type's callbacks only when the event is inside the region bounds. -/
def switchCase (active : List String) (e : PEvent) (hs : Handlers) :
    Handlers × List DEv × Bool :=
  let eventInBounds := containsPt hs.region.bounds (gameX e hs.region) (gameY e hs.region)
  if POINTER_MOVE.contains e.typ then switchMove active e hs eventInBounds
  else if POINTER_UP.contains e.typ then
    if hs.pointerId = some e.pointerId ∧ eventInBounds = true then
      triggerEvent hs (some e.typ) none
    else (hs, [], false)
  else if POINTER_CANCEL.contains e.typ then
    if hs.pointerId = some e.pointerId then triggerEvent hs (some e.typ) none
    else (hs, [], false)
  else
    if eventInBounds then triggerEvent hs (some e.typ) (some e.pointerId)
    else (hs, [], false)

/-- One candidate step of the `dispatchEvent` candidate loop (pointerevent.js lines
301–393): if the candidate is registered and not kinematic, run the switch on the
pointer's type against its handlers and write the (in JS, in-place mutated) handlers
back.  Returns the updated handler map, the invoked-callback trace and whether
propagation stopped.  The `gameLocalX/Y` ancestor adjustment (affecting only fields
the callbacks may read, not control flow) is outside the modelled scope. -/
def processCandidate (active : List String) (e : PEvent) (m : HandlerMap)
    (cand : Region) : HandlerMap × List DEv × Bool :=
  if mapHas m cand && !cand.isKinematic then
    match mapGet m cand with
    | none => (m, [], false)
    | some hs =>
      let r := switchCase active e hs
      (mapSet m cand r.1, r.2.1, r.2.2)
  else (m, [], false)

/-- The candidate loop of `dispatchEvent` (pointerevent.js line 301): candidates are
iterated from the last array element to the first; after each candidate,
`if (handled === true) break`.  The `handled` flag is declared outside the event loop
and is never reset between events, so it is threaded in. -/
def candLoop (active : List String) (e : PEvent) :
    HandlerMap → Bool → List Region → HandlerMap × List DEv × Bool
  | m, handled, [] => (m, [], handled)
  | m, handled, c :: rest =>
    let r := processCandidate active e m c
    let h1 := handled || r.2.2
    if h1 then (r.1, r.2.1, true)
    else
      let rs := candLoop active e r.1 h1 rest
      (rs.1, r.2.1 ++ rs.2.1, rs.2.2)

/-- The module-global dispatch state: `lastTimeStamp` (pointerevent.js line 38) and the
`eventHandlers` map. -/
structure DState where
  lastTimeStamp : ℚ
  handlers : HandlerMap
deriving DecidableEq, Repr

/-- The per-event body of `dispatchEvent` after the staleness check (pointerevent.js
lines 281–398): emit the global `POINTERMOVE` for move-family events, fetch the
broadphase candidates for the current pointer rectangle (`retrieve` with the caller's
z-order comparator — abstracted as the `retrieved` input), append the game viewport,
and run the candidate loop over that array from its end. -/
def dispatchCore (active : List String) (retrieved : List Region) (viewport : Region)
    (s : DState) (handled : Bool) (e : PEvent) : DState × List DEv × Bool :=
  let moveTr := if POINTER_MOVE.contains e.typ then [DEv.pointerMoveEmit e.pointerId] else []
  let r := candLoop active e s.handlers handled ((retrieved ++ [viewport]).reverse)
  ({ s with handlers := r.1 }, moveTr ++ r.2.1, r.2.2)

/-- One iteration of the `dispatchEvent` while-loop for a popped pointer
(pointerevent.js lines 266–398): for a normalized pointer with a defined
`event.timeStamp`, a timestamp strictly below `lastTimeStamp` skips the event
(`continue`), otherwise `lastTimeStamp` is updated; then the event body runs. -/
def dispatchOne (active : List String) (retrieved : List Region) (viewport : Region)
    (s : DState) (handled : Bool) (e : PEvent) : DState × List DEv × Bool :=
  match e.timeStamp with
  | some ts =>
    if e.isNormalized then
      if ts < s.lastTimeStamp then (s, [], handled)
      else dispatchCore active retrieved viewport { s with lastTimeStamp := ts } handled e
    else dispatchCore active retrieved viewport s handled e
  | none => dispatchCore active retrieved viewport s handled e

/-- The inner while-loop of `dispatchEvent` over the already-reversed event stack. -/
def dispatchPopped (active : List String) (retrieved : List Region) (viewport : Region) :
    DState → Bool → List PEvent → DState × List DEv × Bool
  | s, handled, [] => (s, [], handled)
  | s, handled, e :: rest =>
    let r := dispatchOne active retrieved viewport s handled e
    let rs := dispatchPopped active retrieved viewport r.1 r.2.2 rest
    (rs.1, r.2.1 ++ rs.2.1, rs.2.2)

/-- `dispatchEvent(normalizedEvents)` (pointerevent.js lines 263–401): `handled` starts
`false`, and events are popped from the end of the array, i.e. processed in reverse
arrival order. -/
def dispatchEvent (active : List String) (retrieved : List Region) (viewport : Region)
    (s : DState) (evs : List PEvent) : DState × List DEv × Bool :=
  dispatchPopped active retrieved viewport s false evs.reverse

/-- Per-type body of the registration loop of `registerPointerEvent`
(pointerevent.js lines 691–698): append the callback to the type's array, creating
the array when absent. -/
def registerStep (cb : Callback) (h : Handlers) (ty : String) : Handlers :=
  match cbGet h.callbacks ty with
  | some l => { h with callbacks := cbSet h.callbacks ty (l ++ [cb]) }
  | none => { h with callbacks := cbSet h.callbacks ty [cb] }

/-- `registerPointerEvent(eventType, region, callback)` (pointerevent.js lines
666–699): validate the event type against `pointerEventList`, reject an undefined
region, translate the type through `pointerEventMap` and `findAllActiveEvents`, create
the region's handlers entry if absent, and append the callback to each active
translated type.  The `enablePointerEvent()` DOM initialization is outside the
modelled scope; the active event list it computes is the `active` input. -/
def registerPointerEvent (active : List String) (m : HandlerMap) (eventType : String)
    (region : Option Region) (cb : Callback) : Except String HandlerMap :=
  if (pointerEventList.contains eventType) = false then
    Except.error ("invalid event type : " ++ eventType)
  else
    match region with
    | none => Except.error "registerPointerEvent: region is undefined"
    | some r =>
      let eventTypes := findAllActiveEvents active (pointerEventMap eventType)
      let m1 := if mapHas m r then m else mapSet m r ⟨r, [], none⟩
      let hs := (mapGet m1 r).getD ⟨r, [], none⟩
      Except.ok (mapSet m1 r (eventTypes.foldl (registerStep cb) hs))

/-- Per-type body of the removal loop of `releasePointerEvent` (pointerevent.js lines
724–739): remove the given callback (or pop all callbacks when none is given) from the
type's array, deleting the array when it becomes empty. -/
def releaseStep (callback : Option Callback) (h : Handlers) (ty : String) : Handlers :=
  match cbGet h.callbacks ty with
  | some l =>
    let l1 := match callback with
      | some c => l.erase c
      | none => ([] : List Callback)
    if l1.length = 0 then { h with callbacks := cbDelete h.callbacks ty }
    else { h with callbacks := cbSet h.callbacks ty l1 }
  | none => h

/-- `releasePointerEvent(eventType, region, callback?)` (pointerevent.js lines
714–744): validate the event type, translate it, run the per-type removal loop
(`releaseStep`), and finally delete the region's entry when its callbacks table has no
keys left. -/
def releasePointerEvent (active : List String) (m : HandlerMap) (eventType : String)
    (region : Region) (callback : Option Callback) : Except String HandlerMap :=
  if (pointerEventList.contains eventType) = false then
    Except.error ("invalid event type : " ++ eventType)
  else
    let eventTypes := findAllActiveEvents active (pointerEventMap eventType)
    match mapGet m region with
    | none => Except.ok m
    | some hs =>
      let hs1 := eventTypes.foldl (releaseStep callback) hs
      if hs1.callbacks.length = 0 then Except.ok (mapDelete m region)
      else Except.ok (mapSet m region hs1)

end Melon

namespace Melon

/-- C9.  `dispatchEvent` never fires a stale normalized event: a normalized
(non-native-PointerEvent) pointer whose `event.timeStamp` is strictly below the
timestamp of the last normalized event already dispatched produces no region callback
and no `POINTERMOVE` emission — the event is silently skipped and the dispatch state
is unchanged. -/
theorem stale_normalized_event_skipped (active : List String) (retrieved : List Region)
    (viewport : Region) (s : DState) (handled : Bool) (e : PEvent) (ts : ℚ)
    (h1 : e.isNormalized = true) (h2 : e.timeStamp = some ts)
    (h3 : ts < s.lastTimeStamp) :
    dispatchOne active retrieved viewport s handled e = (s, [], handled) := by
  unfold dispatchOne
  rw [h2]
  simp [h1, h3]

/-- Witness for C9 at a concrete stale event (timestamp 0 against lastTimeStamp 1). -/
theorem stale_normalized_event_skipped_witness :
    dispatchOne [] [] ⟨0, false, false, ⟨0, 0, 1, 1⟩⟩ ⟨1, []⟩ false
        ⟨"pointerdown", true, some 0, 1, 0, 0, 0, 0⟩ =
      (⟨1, []⟩, [], false) :=
  stale_normalized_event_skipped [] [] ⟨0, false, false, ⟨0, 0, 1, 1⟩⟩ ⟨1, []⟩ false
    ⟨"pointerdown", true, some 0, 1, 0, 0, 0, 0⟩ 0 rfl rfl (by norm_num)

/-- No invocation in the trace returned `false`. -/
def noConsume (tr : List DEv) : Prop :=
  ∀ rid c, DEv.invoke rid c true ∉ tr

/-- Every invocation in the trace that returned `false` is the trace's last element. -/
def consumeLast (tr : List DEv) : Prop :=
  ∀ pre rid c post, tr = pre ++ DEv.invoke rid c true :: post → post = []

/-- The empty trace has no consuming invocation. -/
theorem noConsume_nil : noConsume [] := by
  intro rid c h
  exact absurd h (List.not_mem_nil _)

/-- A trace without consuming invocations vacuously has them last. -/
theorem noConsume_to_consumeLast (h : noConsume tr) : consumeLast tr := by
  intro pre rid c post heq
  exfalso
  apply h rid c
  rw [heq]
  exact List.mem_append_right pre (List.mem_cons_self _ _)

/-- Concatenation of consume-free traces is consume-free. -/
theorem noConsume_append (h1 : noConsume t1) (h2 : noConsume t2) :
    noConsume (t1 ++ t2) := by
  intro rid c h
  rcases List.mem_append.mp h with h | h
  · exact h1 rid c h
  · exact h2 rid c h

/-- A consume-free prefix followed by a consume-last trace is consume-last. -/
theorem consumeLast_append (h1 : noConsume t1) (h2 : consumeLast t2) :
    consumeLast (t1 ++ t2) := by
  intro pre rid c post heq
  rcases List.append_eq_append_iff.mp heq with ⟨a, ha1, ha2⟩ | ⟨a, ha1, ha2⟩
  · exact h2 a rid c post ha2
  · cases a with
    | nil =>
      rw [List.nil_append] at ha2
      exact h2 [] rid c post ha2.symm
    | cons y a2 =>
      exfalso
      apply h1 rid c
      rw [ha1]
      have hy : y = DEv.invoke rid c true := (List.cons.injEq _ _ _ _ ▸ ha2.symm).1
      rw [hy]
      exact List.mem_append_right pre (List.mem_cons_self _ _)

/-- A singleton trace trivially has its consuming invocation last. -/
theorem consumeLast_singleton (d : DEv) : consumeLast [d] := by
  intro pre rid c post heq
  cases pre with
  | nil =>
    injection heq with h1 h2
    exact h2.symm
  | cons a pre2 =>
    have hl := congrArg List.length heq
    simp at hl

/-- Prepending a non-consuming invocation preserves consume-freeness. -/
theorem noConsume_cons_false (rid c : ℕ) (h : noConsume tr) :
    noConsume (DEv.invoke rid c false :: tr) := by
  intro rid2 c2 hm
  rcases List.mem_cons.mp hm with he | hm2
  · simp at he
  · exact h rid2 c2 hm2

/-- A `POINTERMOVE` emission is not a consuming invocation. -/
theorem noConsume_moveEmit (pid : ℕ) : noConsume [DEv.pointerMoveEmit pid] := by
  intro rid c hm
  rcases List.mem_cons.mp hm with he | hm2
  · simp at he
  · exact absurd hm2 (List.not_mem_nil _)

end Melon

namespace Melon

/-- The invariant the dispatch machinery maintains for a produced trace and its
propagation-stopped flag: if propagation stopped, the consuming invocation is the
trace's last element; if it did not, no invocation consumed the event. -/
def stopOk (tr : List DEv) (st : Bool) : Prop :=
  (st = true → consumeLast tr) ∧ (st = false → noConsume tr)

/-- The empty trace satisfies the invariant for either flag. -/
theorem stopOk_nil (b : Bool) : stopOk [] b :=
  ⟨fun _ => noConsume_to_consumeLast noConsume_nil, fun _ => noConsume_nil⟩

/-- Either way, a trace satisfying the invariant has consuming invocations only last. -/
theorem stopOk_to_consumeLast (h : stopOk tr st) : consumeLast tr := by
  cases st
  · exact noConsume_to_consumeLast (h.2 rfl)
  · exact h.1 rfl

/-- Prepending a not-stopped trace preserves the invariant. -/
theorem stopOk_append (h1 : stopOk tr1 false) (h2 : stopOk tr2 st) :
    stopOk (tr1 ++ tr2) st := by
  cases st
  · exact ⟨fun h => (nomatch h), fun _ => noConsume_append (h1.2 rfl) (h2.2 rfl)⟩
  · exact ⟨fun _ => consumeLast_append (h1.2 rfl) (h2.1 rfl), fun h => (nomatch h)⟩

/-- Prepending a non-consuming invocation preserves the invariant. -/
theorem stopOk_cons_false (rid c : ℕ) (h : stopOk tr st) :
    stopOk (DEv.invoke rid c false :: tr) st := by
  cases st
  · exact ⟨fun hh => (nomatch hh), fun _ => noConsume_cons_false rid c (h.2 rfl)⟩
  · refine ⟨fun _ => ?_, fun hh => (nomatch hh)⟩
    exact consumeLast_append (noConsume_cons_false rid c noConsume_nil) (h.1 rfl)

/-- The callback loop stops exactly at a consuming callback, which is then the last
element of its trace. -/
theorem runCallbacks_stopOk (rid : ℕ) (l : List Callback) :
    stopOk (runCallbacks rid l).1 (runCallbacks rid l).2 := by
  induction l with
  | nil => exact stopOk_nil false
  | cons c rest ih =>
    by_cases hc : c.consumes = true
    · simp only [runCallbacks, if_pos hc]
      exact ⟨fun _ => consumeLast_singleton _, fun h => (nomatch h)⟩
    · simp only [runCallbacks, if_neg hc]
      exact stopOk_cons_false rid c.cid ih

/-- `triggerEvent` maintains the stop invariant. -/
theorem triggerEvent_stopOk (hs : Handlers) (t : Option String) (pid : Option ℕ) :
    stopOk (triggerEvent hs t pid).2.1 (triggerEvent hs t pid).2.2 := by
  cases t with
  | none => exact stopOk_nil false
  | some ty =>
    cases hcb : cbGet hs.callbacks ty with
    | none =>
      simp only [triggerEvent, hcb]
      exact stopOk_nil false
    | some cbs =>
      simp only [triggerEvent, hcb]
      exact runCallbacks_stopOk hs.region.rid cbs.reverse

/-- The leading leave/enter move branch maintains the stop invariant. -/
theorem moveFirstTrigger_stopOk (active : List String) (e : PEvent) (hs : Handlers)
    (b : Bool) :
    stopOk (moveFirstTrigger active e hs b).2.1 (moveFirstTrigger active e hs b).2.2 := by
  unfold moveFirstTrigger
  split_ifs
  · exact triggerEvent_stopOk hs (findActiveEvent active POINTER_LEAVE) none
  · exact triggerEvent_stopOk hs (findActiveEvent active POINTER_ENTER) (some e.pointerId)
  · exact stopOk_nil false

/-- The move case maintains the stop invariant. -/
theorem switchMove_stopOk (active : List String) (e : PEvent) (hs : Handlers)
    (b : Bool) :
    stopOk (switchMove active e hs b).2.1 (switchMove active e hs b).2.2 := by
  simp only [switchMove]
  by_cases h1 : (moveFirstTrigger active e hs b).2.2 = true
  · rw [if_pos h1]
    exact ⟨fun _ => (moveFirstTrigger_stopOk active e hs b).1 h1, fun hh => (nomatch hh)⟩
  · rw [if_neg h1]
    have h1f : (moveFirstTrigger active e hs b).2.2 = false := by
      revert h1
      cases (moveFirstTrigger active e hs b).2.2 <;> simp
    have hp0 : stopOk (moveFirstTrigger active e hs b).2.1 false := by
      have := moveFirstTrigger_stopOk active e hs b
      rwa [h1f] at this
    by_cases hb : b = true
    · rw [if_pos hb]
      exact stopOk_append hp0
        (triggerEvent_stopOk (moveFirstTrigger active e hs b).1 (some e.typ) (some e.pointerId))
    · rw [if_neg hb]
      exact hp0

/-- The whole type switch maintains the stop invariant. -/
theorem switchCase_stopOk (active : List String) (e : PEvent) (hs : Handlers) :
    stopOk (switchCase active e hs).2.1 (switchCase active e hs).2.2 := by
  simp only [switchCase]
  split_ifs
  · exact switchMove_stopOk active e hs _
  · exact triggerEvent_stopOk hs (some e.typ) none
  · exact stopOk_nil false
  · exact triggerEvent_stopOk hs (some e.typ) none
  · exact stopOk_nil false
  · exact triggerEvent_stopOk hs (some e.typ) (some e.pointerId)
  · exact stopOk_nil false

/-- Each candidate step maintains the stop invariant. -/
theorem processCandidate_stopOk (active : List String) (e : PEvent) (m : HandlerMap)
    (cand : Region) :
    stopOk (processCandidate active e m cand).2.1
      (processCandidate active e m cand).2.2 := by
  unfold processCandidate
  split
  · cases hget : mapGet m cand with
    | none =>
      simp only [hget]
      exact stopOk_nil false
    | some hs =>
      simp only [hget]
      exact switchCase_stopOk active e hs
  · exact stopOk_nil false

/-- The candidate loop maintains the stop invariant: in particular, once a callback
consumes the event, no further callback of the loop is invoked. -/
theorem candLoop_stopOk (active : List String) (e : PEvent) (cs : List Region) :
    ∀ (m : HandlerMap) (handled : Bool),
      stopOk (candLoop active e m handled cs).2.1 (candLoop active e m handled cs).2.2 := by
  induction cs with
  | nil =>
    intro m handled
    exact stopOk_nil handled
  | cons c rest ih =>
    intro m handled
    simp only [candLoop]
    by_cases h1 : (handled || (processCandidate active e m c).2.2) = true
    · rw [if_pos h1]
      exact ⟨fun _ => stopOk_to_consumeLast (processCandidate_stopOk active e m c),
             fun hh => (nomatch hh)⟩
    · rw [if_neg h1]
      have hh : (processCandidate active e m c).2.2 = false := by
        revert h1
        cases handled <;> cases hp : (processCandidate active e m c).2.2 <;> simp
      have hp0 : stopOk (processCandidate active e m c).2.1 false := by
        have := processCandidate_stopOk active e m c
        rwa [hh] at this
      exact stopOk_append hp0
        (ih (processCandidate active e m c).1 (handled || (processCandidate active e m c).2.2))

/-- The per-event dispatch body maintains the stop invariant. -/
theorem dispatchCore_stopOk (active : List String) (retrieved : List Region)
    (viewport : Region) (s : DState) (handled : Bool) (e : PEvent) :
    stopOk (dispatchCore active retrieved viewport s handled e).2.1
      (dispatchCore active retrieved viewport s handled e).2.2 := by
  simp only [dispatchCore]
  by_cases hm : POINTER_MOVE.contains e.typ = true
  · rw [if_pos hm]
    exact stopOk_append ⟨fun hh => (nomatch hh), fun _ => noConsume_moveEmit e.pointerId⟩
      (candLoop_stopOk active e ((retrieved ++ [viewport]).reverse) s.handlers handled)
  · rw [if_neg hm]
    exact stopOk_append ⟨fun hh => (nomatch hh), fun _ => noConsume_nil⟩
      (candLoop_stopOk active e ((retrieved ++ [viewport]).reverse) s.handlers handled)

/-- `dispatchOne` maintains the stop invariant. -/
theorem dispatchOne_stopOk (active : List String) (retrieved : List Region)
    (viewport : Region) (s : DState) (handled : Bool) (e : PEvent) :
    stopOk (dispatchOne active retrieved viewport s handled e).2.1
      (dispatchOne active retrieved viewport s handled e).2.2 := by
  unfold dispatchOne
  cases hts : e.timeStamp with
  | none => exact dispatchCore_stopOk active retrieved viewport s handled e
  | some ts =>
    dsimp only
    by_cases hn : e.isNormalized = true
    · rw [if_pos hn]
      by_cases hlt : ts < s.lastTimeStamp
      · rw [if_pos hlt]
        exact stopOk_nil handled
      · rw [if_neg hlt]
        exact dispatchCore_stopOk active retrieved viewport _ handled e
    · rw [if_neg hn]
      exact dispatchCore_stopOk active retrieved viewport s handled e

end Melon

namespace Melon

/-- Every action emitted by the callback loop is an invocation tagged with the given
region id. -/
theorem runCallbacks_shape (rid : ℕ) (l : List Callback) :
    ∀ d ∈ (runCallbacks rid l).1, ∃ c co, d = DEv.invoke rid c co := by
  induction l with
  | nil =>
    intro d hd
    exact absurd hd (List.not_mem_nil _)
  | cons c rest ih =>
    intro d hd
    by_cases hc : c.consumes = true
    · simp only [runCallbacks, if_pos hc] at hd
      exact ⟨c.cid, true, by simpa using hd⟩
    · simp only [runCallbacks, if_neg hc] at hd
      rcases List.mem_cons.mp hd with he | he
      · exact ⟨c.cid, false, he⟩
      · exact ih d he

/-- `triggerEvent` changes at most the stored pointer id, never the region. -/
theorem triggerEvent_region (hs : Handlers) (t : Option String) (pid : Option ℕ) :
    (triggerEvent hs t pid).1.region = hs.region := by
  cases t with
  | none => rfl
  | some ty => cases hcb : cbGet hs.callbacks ty <;> simp [triggerEvent, hcb]

/-- Every action emitted by `triggerEvent` is an invocation tagged with the handlers'
region id. -/
theorem triggerEvent_shape (hs : Handlers) (t : Option String) (pid : Option ℕ) :
    ∀ d ∈ (triggerEvent hs t pid).2.1, ∃ c co, d = DEv.invoke hs.region.rid c co := by
  cases t with
  | none =>
    intro d hd
    exact absurd hd (List.not_mem_nil _)
  | some ty =>
    cases hcb : cbGet hs.callbacks ty with
    | none =>
      simp only [triggerEvent, hcb]
      intro d hd
      exact absurd hd (List.not_mem_nil _)
    | some cbs =>
      simp only [triggerEvent, hcb]
      exact runCallbacks_shape hs.region.rid cbs.reverse

/-- The leave/enter branch never changes the region. -/
theorem moveFirstTrigger_region (active : List String) (e : PEvent) (hs : Handlers)
    (b : Bool) : (moveFirstTrigger active e hs b).1.region = hs.region := by
  unfold moveFirstTrigger
  split_ifs
  · exact triggerEvent_region hs _ none
  · exact triggerEvent_region hs _ (some e.pointerId)
  · rfl

/-- Every action emitted by the leave/enter branch carries the handlers' region id. -/
theorem moveFirstTrigger_shape (active : List String) (e : PEvent) (hs : Handlers)
    (b : Bool) :
    ∀ d ∈ (moveFirstTrigger active e hs b).2.1, ∃ c co, d = DEv.invoke hs.region.rid c co := by
  unfold moveFirstTrigger
  split_ifs
  · exact triggerEvent_shape hs _ none
  · exact triggerEvent_shape hs _ (some e.pointerId)
  · intro d hd
    exact absurd hd (List.not_mem_nil _)

/-- The move case never changes the region. -/
theorem switchMove_region (active : List String) (e : PEvent) (hs : Handlers)
    (b : Bool) : (switchMove active e hs b).1.region = hs.region := by
  simp only [switchMove]
  by_cases h1 : (moveFirstTrigger active e hs b).2.2 = true
  · rw [if_pos h1]
    exact moveFirstTrigger_region active e hs b
  · rw [if_neg h1]
    by_cases hb : b = true
    · rw [if_pos hb]
      rw [triggerEvent_region, moveFirstTrigger_region]
    · rw [if_neg hb]
      exact moveFirstTrigger_region active e hs b

/-- Every action emitted by the move case carries the handlers' region id. -/
theorem switchMove_shape (active : List String) (e : PEvent) (hs : Handlers)
    (b : Bool) :
    ∀ d ∈ (switchMove active e hs b).2.1, ∃ c co, d = DEv.invoke hs.region.rid c co := by
  simp only [switchMove]
  by_cases h1 : (moveFirstTrigger active e hs b).2.2 = true
  · rw [if_pos h1]
    exact moveFirstTrigger_shape active e hs b
  · rw [if_neg h1]
    by_cases hb : b = true
    · rw [if_pos hb]
      intro d hd
      rcases List.mem_append.mp hd with he | he
      · exact moveFirstTrigger_shape active e hs b d he
      · have := triggerEvent_shape (moveFirstTrigger active e hs b).1 (some e.typ)
          (some e.pointerId) d he
        rwa [moveFirstTrigger_region] at this
    · rw [if_neg hb]
      exact moveFirstTrigger_shape active e hs b

/-- The type switch never changes the region. -/
theorem switchCase_region (active : List String) (e : PEvent) (hs : Handlers) :
    (switchCase active e hs).1.region = hs.region := by
  simp only [switchCase]
  split_ifs
  · exact switchMove_region active e hs _
  · exact triggerEvent_region hs (some e.typ) none
  · rfl
  · exact triggerEvent_region hs (some e.typ) none
  · rfl
  · exact triggerEvent_region hs (some e.typ) (some e.pointerId)
  · rfl

/-- The switch falls into its default case — the one taken by `pointerdown` and
`wheel` events — exactly when the type is in none of the move, up and cancel
families. -/
def defaultSwitchCase (e : PEvent) : Bool :=
  !(POINTER_MOVE.contains e.typ) && !(POINTER_UP.contains e.typ) &&
    !(POINTER_CANCEL.contains e.typ)

/-- Every invocation emitted by the type switch carries the handlers' region id, and —
in the default (down/wheel) case — happens only when the pointer's game coordinates
are inside the region's bounds. -/
theorem switchCase_sound (active : List String) (e : PEvent) (hs : Handlers) :
    ∀ rid c co, DEv.invoke rid c co ∈ (switchCase active e hs).2.1 →
      hs.region.rid = rid ∧
      (defaultSwitchCase e = true →
        containsPt hs.region.bounds (gameX e hs.region) (gameY e hs.region) = true) := by
  intro rid c co hd
  by_cases hm : POINTER_MOVE.contains e.typ = true
  · have hdef : defaultSwitchCase e = false := by
      simp only [defaultSwitchCase, hm, Bool.not_true, Bool.false_and, Bool.and_false]
    simp only [switchCase, if_pos hm] at hd
    obtain ⟨c2, co2, he⟩ := switchMove_shape active e hs _ _ hd
    injection he with h1 h2 h3
    exact ⟨h1.symm, fun hc => by rw [hdef] at hc; exact absurd hc (by simp)⟩
  · simp only [switchCase, if_neg hm] at hd
    by_cases hu : POINTER_UP.contains e.typ = true
    · have hdef : defaultSwitchCase e = false := by
        simp only [defaultSwitchCase, hu, Bool.not_true, Bool.false_and, Bool.and_false]
      rw [if_pos hu] at hd
      have hshape : ∃ c2 co2, DEv.invoke rid c co = DEv.invoke hs.region.rid c2 co2 := by
        by_cases hcond : hs.pointerId = some e.pointerId ∧
            containsPt hs.region.bounds (gameX e hs.region) (gameY e hs.region) = true
        · rw [if_pos hcond] at hd
          exact triggerEvent_shape hs (some e.typ) none _ hd
        · rw [if_neg hcond] at hd
          exact absurd hd (List.not_mem_nil _)
      obtain ⟨c2, co2, he⟩ := hshape
      injection he with h1 h2 h3
      exact ⟨h1.symm, fun hc => by rw [hdef] at hc; exact absurd hc (by simp)⟩
    · rw [if_neg hu] at hd
      by_cases hca : POINTER_CANCEL.contains e.typ = true
      · have hdef : defaultSwitchCase e = false := by
          simp only [defaultSwitchCase, hca, Bool.not_true, Bool.false_and, Bool.and_false]
        rw [if_pos hca] at hd
        have hshape : ∃ c2 co2, DEv.invoke rid c co = DEv.invoke hs.region.rid c2 co2 := by
          by_cases hcond : hs.pointerId = some e.pointerId
          · rw [if_pos hcond] at hd
            exact triggerEvent_shape hs (some e.typ) none _ hd
          · rw [if_neg hcond] at hd
            exact absurd hd (List.not_mem_nil _)
        obtain ⟨c2, co2, he⟩ := hshape
        injection he with h1 h2 h3
        exact ⟨h1.symm, fun hc => by rw [hdef] at hc; exact absurd hc (by simp)⟩
      · rw [if_neg hca] at hd
        by_cases hb : containsPt hs.region.bounds (gameX e hs.region) (gameY e hs.region) = true
        · rw [if_pos hb] at hd
          obtain ⟨c2, co2, he⟩ := triggerEvent_shape hs (some e.typ) (some e.pointerId) _ hd
          injection he with h1 h2 h3
          exact ⟨h1.symm, fun _ => hb⟩
        · rw [if_neg hb] at hd
          exact absurd hd (List.not_mem_nil _)

end Melon

namespace Melon

/-- A successful `mapGet` names an entry of the map. -/
theorem mapGet_mem (m : HandlerMap) (r : Region) (hs : Handlers)
    (h : mapGet m r = some hs) : ∃ q ∈ m, q.1 = r ∧ q.2 = hs := by
  unfold mapGet at h
  cases hf : m.find? (fun p => decide (p.1 = r)) with
  | none =>
    rw [hf] at h
    exact absurd h (by simp)
  | some q =>
    rw [hf] at h
    have h2 : q.2 = hs := by simpa using h
    refine ⟨q, List.mem_of_find?_eq_some hf, ?_, h2⟩
    have := List.find?_some hf
    simpa using this

/-- Every entry of the map after a candidate step carries the region of an entry of
the map before it (`triggerEvent` only rewrites pointer ids). -/
theorem processCandidate_regions (active : List String) (e : PEvent) (m : HandlerMap)
    (cand : Region) :
    ∀ p ∈ (processCandidate active e m cand).1, ∃ q ∈ m, p.2.region = q.2.region := by
  unfold processCandidate
  by_cases hcond : (mapHas m cand && !cand.isKinematic) = true
  · rw [if_pos hcond]
    cases hget : mapGet m cand with
    | none =>
      intro p hp
      exact ⟨p, hp, rfl⟩
    | some hs =>
      dsimp only
      intro p hp
      unfold mapSet at hp
      by_cases hhas : mapHas m cand = true
      · rw [if_pos hhas] at hp
        rcases List.mem_map.mp hp with ⟨q, hq, heq⟩
        by_cases hqc : q.1 = cand
        · rw [if_pos hqc] at heq
          obtain ⟨qm, hqm, hq1, hq2⟩ := mapGet_mem m cand hs hget
          refine ⟨qm, hqm, ?_⟩
          rw [← heq]
          show (switchCase active e hs).1.region = qm.2.region
          rw [switchCase_region, hq2]
        · rw [if_neg hqc] at heq
          exact ⟨q, hq, by rw [← heq]⟩
      · exfalso
        simp only [Bool.and_eq_true] at hcond
        exact hhas hcond.1
  · rw [if_neg hcond]
    intro p hp
    exact ⟨p, hp, rfl⟩

/-- Every invocation of a candidate step carries the region id of an entry of the
incoming map, and — in the default (down/wheel) case — that region's bounds contain
the pointer's game coordinates. -/
theorem processCandidate_sound (active : List String) (e : PEvent) (m : HandlerMap)
    (cand : Region) :
    ∀ rid c co, DEv.invoke rid c co ∈ (processCandidate active e m cand).2.1 →
      ∃ q ∈ m, q.2.region.rid = rid ∧
        (defaultSwitchCase e = true →
          containsPt q.2.region.bounds (gameX e q.2.region) (gameY e q.2.region) = true) := by
  unfold processCandidate
  by_cases hcond : (mapHas m cand && !cand.isKinematic) = true
  · rw [if_pos hcond]
    cases hget : mapGet m cand with
    | none =>
      intro rid c co hd
      exact absurd hd (List.not_mem_nil _)
    | some hs =>
      dsimp only
      intro rid c co hd
      obtain ⟨qm, hqm, hq1, hq2⟩ := mapGet_mem m cand hs hget
      obtain ⟨h1, h2⟩ := switchCase_sound active e hs rid c co hd
      exact ⟨qm, hqm, by rw [hq2]; exact h1, by rw [hq2]; exact h2⟩
  · rw [if_neg hcond]
    intro rid c co hd
    exact absurd hd (List.not_mem_nil _)

/-- Every invocation of the candidate loop carries the region id of an entry of the
incoming map, with the default-case bounds guarantee. -/
theorem candLoop_sound (active : List String) (e : PEvent) (cs : List Region) :
    ∀ (m : HandlerMap) (handled : Bool),
      ∀ rid c co, DEv.invoke rid c co ∈ (candLoop active e m handled cs).2.1 →
        ∃ q ∈ m, q.2.region.rid = rid ∧
          (defaultSwitchCase e = true →
            containsPt q.2.region.bounds (gameX e q.2.region) (gameY e q.2.region) = true) := by
  induction cs with
  | nil =>
    intro m handled rid c co hd
    exact absurd hd (List.not_mem_nil _)
  | cons cand rest ih =>
    intro m handled rid c co hd
    simp only [candLoop] at hd
    by_cases h1 : (handled || (processCandidate active e m cand).2.2) = true
    · rw [if_pos h1] at hd
      exact processCandidate_sound active e m cand rid c co hd
    · rw [if_neg h1] at hd
      rcases List.mem_append.mp hd with he | he
      · exact processCandidate_sound active e m cand rid c co he
      · obtain ⟨q2, hq2, hrid, hbound⟩ :=
          ih (processCandidate active e m cand).1
            (handled || (processCandidate active e m cand).2.2) rid c co he
        obtain ⟨q, hq, hreg⟩ := processCandidate_regions active e m cand q2 hq2
        refine ⟨q, hq, ?_, ?_⟩
        · rw [← hreg]
          exact hrid
        · rw [← hreg]
          exact hbound

/-- Every invocation of `dispatchOne` carries the region id of a registered entry of
the dispatch state, with the default-case bounds guarantee. -/
theorem dispatchOne_sound (active : List String) (retrieved : List Region)
    (viewport : Region) (s : DState) (handled : Bool) (e : PEvent) :
    ∀ rid c co, DEv.invoke rid c co ∈ (dispatchOne active retrieved viewport s handled e).2.1 →
      ∃ q ∈ s.handlers, q.2.region.rid = rid ∧
        (defaultSwitchCase e = true →
          containsPt q.2.region.bounds (gameX e q.2.region) (gameY e q.2.region) = true) := by
  have hcore : ∀ (s2 : DState), s2.handlers = s.handlers →
      ∀ rid c co, DEv.invoke rid c co ∈ (dispatchCore active retrieved viewport s2 handled e).2.1 →
      ∃ q ∈ s.handlers, q.2.region.rid = rid ∧
        (defaultSwitchCase e = true →
          containsPt q.2.region.bounds (gameX e q.2.region) (gameY e q.2.region) = true) := by
    intro s2 hs2 rid c co hd
    simp only [dispatchCore] at hd
    rcases List.mem_append.mp hd with he | he
    · by_cases hmv : POINTER_MOVE.contains e.typ = true
      · rw [if_pos hmv] at he
        simp at he
      · rw [if_neg hmv] at he
        exact absurd he (List.not_mem_nil _)
    · rw [← hs2]
      exact candLoop_sound active e ((retrieved ++ [viewport]).reverse) s2.handlers handled
        rid c co he
  unfold dispatchOne
  cases hts : e.timeStamp with
  | none => exact hcore s rfl
  | some ts =>
    dsimp only
    by_cases hn : e.isNormalized = true
    · rw [if_pos hn]
      by_cases hlt : ts < s.lastTimeStamp
      · rw [if_pos hlt]
        intro rid c co hd
        exact absurd hd (List.not_mem_nil _)
      · rw [if_neg hlt]
        exact hcore _ rfl
    · rw [if_neg hn]
      exact hcore s rfl

end Melon

namespace Melon

/-- C8.  Pointer event dispatch is ordered and bounded-region-targeted: for a
dispatched `pointerdown` or `wheel` pointer — whose candidates are the broadphase
`retrieve` result over the pointer rectangle (ordered by the caller-supplied z-order
comparator, the `retrieved` input) with the game viewport appended, iterated from the
array's end — every invoked callback belongs to a registered region whose bounds
contain the pointer's game coordinates, and once any callback returns `false`, no
further callback is invoked for that event (the consuming invocation is the last
element of the event's trace). -/
theorem dispatch_down_wheel_bounded (active : List String) (retrieved : List Region)
    (viewport : Region) (s : DState) (handled : Bool) (e : PEvent)
    (hty : e.typ = "pointerdown" ∨ e.typ = "wheel") :
    (∀ rid c co,
      DEv.invoke rid c co ∈ (dispatchOne active retrieved viewport s handled e).2.1 →
      ∃ q ∈ s.handlers, q.2.region.rid = rid ∧
        containsPt q.2.region.bounds (gameX e q.2.region) (gameY e q.2.region) = true) ∧
    (∀ pre rid c post,
      (dispatchOne active retrieved viewport s handled e).2.1 =
        pre ++ DEv.invoke rid c true :: post → post = []) := by
  have hdef : defaultSwitchCase e = true := by
    rcases hty with h | h <;> simp only [defaultSwitchCase, h] <;> decide
  constructor
  · intro rid c co hd
    obtain ⟨q, hq, h1, h2⟩ :=
      dispatchOne_sound active retrieved viewport s handled e rid c co hd
    exact ⟨q, hq, h1, h2 hdef⟩
  · intro pre rid c post heq
    exact stopOk_to_consumeLast (dispatchOne_stopOk active retrieved viewport s handled e)
      pre rid c post heq

/-- A concrete region for the dispatch witness. -/
def demoRegion : Region := ⟨5, false, false, ⟨0, 0, 4, 4⟩⟩

/-- Concrete handlers with one `pointerdown` callback. -/
def demoHandlers : Handlers := ⟨demoRegion, [("pointerdown", [⟨9, false⟩])], none⟩

/-- A concrete dispatch state with `demoRegion` registered. -/
def demoDState : DState := ⟨0, [(demoRegion, demoHandlers)]⟩

/-- A concrete viewport region with no registration. -/
def demoViewport : Region := ⟨6, false, false, ⟨0, 0, 4, 4⟩⟩

/-- A concrete `pointerdown` pointer at game coordinates `(2, 2)`. -/
def demoDown : PEvent := ⟨"pointerdown", false, none, 1, 2, 2, 2, 2⟩

/-- Witness for C8: in the concrete scenario, the invoked callback's region is
registered and its bounds contain the pointer's coordinates. -/
theorem dispatch_down_wheel_bounded_witness :
    ∃ q ∈ demoDState.handlers, q.2.region.rid = 5 ∧
      containsPt q.2.region.bounds (gameX demoDown q.2.region)
        (gameY demoDown q.2.region) = true :=
  (dispatch_down_wheel_bounded [] [demoRegion] demoViewport demoDState false demoDown
    (Or.inl rfl)).1 5 9 false (by decide)

end Melon

namespace Melon

/-- A region none of the map's keys equals is not `has`-found. -/
theorem mapHas_eq_false (m : HandlerMap) (r : Region) (hr : ∀ p ∈ m, p.1 ≠ r) :
    mapHas m r = false := by
  unfold mapHas
  rw [List.any_eq_false]
  intro p hp
  simp only [decide_eq_true_eq]
  exact hr p hp

/-- Setting an absent key appends the entry. -/
theorem mapSet_fresh (m : HandlerMap) (r : Region) (h : Handlers)
    (hh : mapHas m r = false) : mapSet m r h = m ++ [(r, h)] := by
  unfold mapSet
  rw [hh, if_neg (by simp)]

/-- Looking up a freshly appended key finds it. -/
theorem mapGet_append_fresh (m : HandlerMap) (r : Region) (h : Handlers)
    (hr : ∀ p ∈ m, p.1 ≠ r) : mapGet (m ++ [(r, h)]) r = some h := by
  unfold mapGet
  rw [List.find?_append]
  have h1 : List.find? (fun p => decide (p.1 = r)) m = none := by
    rw [List.find?_eq_none]
    intro p hp
    simp only [decide_eq_true_eq]
    exact hr p hp
  have h2 : List.find? (fun p => decide (p.1 = r)) [(r, h)] = some (r, h) := by
    rw [List.find?_cons_of_pos]
    simp
  rw [h1, h2]
  rfl

/-- A freshly appended key is `has`-found. -/
theorem mapHas_append_true (m : HandlerMap) (r : Region) (h : Handlers) :
    mapHas (m ++ [(r, h)]) r = true := by
  unfold mapHas
  rw [List.any_append]
  simp

/-- Overwriting a freshly appended key replaces only that entry. -/
theorem mapSet_append_fresh (m : HandlerMap) (r : Region) (h h2 : Handlers)
    (hr : ∀ p ∈ m, p.1 ≠ r) : mapSet (m ++ [(r, h)]) r h2 = m ++ [(r, h2)] := by
  unfold mapSet
  rw [if_pos (mapHas_append_true m r h), List.map_append]
  have h1 : (m.map fun p => if p.1 = r then (r, h2) else p) = m := by
    have := List.map_congr_left (l := m)
      (f := fun p => if p.1 = r then (r, h2) else p) (g := id)
      (fun p hp => if_neg (hr p hp))
    rw [this, List.map_id]
  rw [h1]
  simp

/-- Deleting a freshly appended key restores the original map. -/
theorem mapDelete_append_fresh (m : HandlerMap) (r : Region) (h : Handlers)
    (hr : ∀ p ∈ m, p.1 ≠ r) : mapDelete (m ++ [(r, h)]) r = m := by
  unfold mapDelete
  rw [List.filter_append]
  have h1 : m.filter (fun p => decide (p.1 ≠ r)) = m :=
    List.filter_eq_self.mpr (fun p hp => by simpa using hr p hp)
  have h2 : (([(r, h)] : HandlerMap).filter fun p => decide (p.1 ≠ r)) = [] := by
    simp
  rw [h1, h2, List.append_nil]

/-- Setting an absent callback key appends the entry. -/
theorem cbSet_fresh (c : List (String × List Callback)) (t : String) (l : List Callback)
    (h : cbGet c t = none) : cbSet c t l = c ++ [(t, l)] := by
  unfold cbSet
  rw [if_neg]
  intro hcontra
  unfold cbGet at h
  rcases Option.isSome_iff_exists.mp hcontra with ⟨q, hq⟩
  rw [hq] at h
  simp at h

/-- Looking up a different key skips a freshly appended entry. -/
theorem cbGet_append_ne (c : List (String × List Callback)) (a t : String)
    (l : List Callback) (hne : t ≠ a) : cbGet (c ++ [(a, l)]) t = cbGet c t := by
  unfold cbGet
  rw [List.find?_append]
  have h2 : List.find? (fun p => decide (p.1 = t)) [(a, l)] = none := by
    rw [List.find?_cons_of_neg]
    · rfl
    · simp only [decide_eq_true_eq]
      exact fun hcontra => hne hcontra.symm
  rw [h2]
  cases List.find? (fun p => decide (p.1 = t)) c <;> rfl

/-- Registering over pairwise distinct fresh types appends one singleton callback
array per type. -/
theorem regFold_fresh (cb : Callback) (ts : List String) :
    ∀ (h0 : Handlers), ts.Nodup → (∀ ty ∈ ts, cbGet h0.callbacks ty = none) →
      ts.foldl (registerStep cb) h0 =
        { h0 with callbacks := h0.callbacks ++ ts.map (fun ty => (ty, [cb])) } := by
  induction ts with
  | nil =>
    intro h0 _ _
    simp only [List.foldl_nil, List.map_nil, List.append_nil]
  | cons ty ts2 ih =>
    intro h0 hnd hget
    simp only [List.foldl_cons]
    have hstep : registerStep cb h0 ty =
        { h0 with callbacks := h0.callbacks ++ [(ty, [cb])] } := by
      unfold registerStep
      rw [hget ty (List.mem_cons_self _ _)]
      rw [cbSet_fresh _ _ _ (hget ty (List.mem_cons_self _ _))]
    have hget2 : ∀ ty2 ∈ ts2,
        cbGet ({ h0 with callbacks := h0.callbacks ++ [(ty, [cb])] } : Handlers).callbacks ty2 =
          none := by
      intro ty2 hty2
      dsimp only
      rw [cbGet_append_ne]
      · exact hget ty2 (List.mem_cons_of_mem _ hty2)
      · intro hcontra
        rw [hcontra] at hty2
        exact (List.nodup_cons.mp hnd).1 hty2
    rw [hstep, ih _ (List.nodup_cons.mp hnd).2 hget2]
    simp only [List.map_cons, List.append_assoc]
    rfl

/-- Releasing (with no specific callback) over the exact registered types empties the
callbacks table. -/
theorem relFold_clears (cb : Callback) (ts : List String) :
    ∀ (h0 : Handlers), ts.Nodup →
      h0.callbacks = ts.map (fun ty => (ty, [cb])) →
      ts.foldl (releaseStep none) h0 = { h0 with callbacks := [] } := by
  induction ts with
  | nil =>
    intro h0 _ hcb
    simp only [List.map_nil] at hcb
    simp only [List.foldl_nil]
    cases h0 with
    | mk reg cbs pid =>
      simp only at hcb
      rw [hcb]
  | cons ty ts2 ih =>
    intro h0 hnd hcb
    simp only [List.foldl_cons]
    have hstep : releaseStep none h0 ty =
        { h0 with callbacks := ts2.map (fun ty2 => (ty2, [cb])) } := by
      unfold releaseStep
      have hget : cbGet h0.callbacks ty = some [cb] := by
        rw [hcb]
        simp only [List.map_cons]
        unfold cbGet
        rw [List.find?_cons_of_pos]
        · rfl
        · simp
      rw [hget]
      dsimp only
      have hzero : ([] : List Callback).length = 0 := rfl
      rw [if_pos hzero]
      have hdel : cbDelete h0.callbacks ty = ts2.map (fun ty2 => (ty2, [cb])) := by
        rw [hcb]
        unfold cbDelete
        simp only [List.map_cons, List.filter_cons]
        rw [if_neg (by simp)]
        apply List.filter_eq_self.mpr
        intro p hp
        rcases List.mem_map.mp hp with ⟨ty2, hty2, heq⟩
        simp only [decide_eq_true_eq]
        rw [← heq]
        intro hcontra
        simp only at hcontra
        rw [hcontra] at hty2
        exact (List.nodup_cons.mp hnd).1 hty2
      rw [hdel]
    rw [hstep, ih _ (List.nodup_cons.mp hnd).2 rfl]

end Melon

namespace Melon

/-- Registering a valid event type on a fresh region appends exactly one handlers
entry, holding one singleton callback array per active translated type. -/
theorem register_ok_form (active : List String) (m : HandlerMap) (t : String)
    (r : Region) (cb : Callback)
    (hc : pointerEventList.contains t = true)
    (hnd : (findAllActiveEvents active (pointerEventMap t)).Nodup)
    (hr : ∀ p ∈ m, p.1 ≠ r) :
    registerPointerEvent active m t (some r) cb =
      Except.ok (m ++ [(r, ⟨r, (findAllActiveEvents active (pointerEventMap t)).map
        (fun ty => (ty, [cb])), none⟩)]) := by
  unfold registerPointerEvent
  rw [hc, if_neg (by simp)]
  dsimp only
  rw [mapHas_eq_false m r hr, if_neg (by simp)]
  rw [mapSet_fresh m r _ (mapHas_eq_false m r hr)]
  rw [mapGet_append_fresh m r _ hr]
  simp only [Option.getD_some]
  rw [regFold_fresh cb (findAllActiveEvents active (pointerEventMap t))
      ⟨r, [], none⟩ hnd (fun ty _ => rfl)]
  rw [mapSet_append_fresh m r _ _ hr]
  rfl

/-- Releasing the same event type then removes the region's entry entirely, restoring
the original map. -/
theorem release_ok_form (active : List String) (m : HandlerMap) (t : String)
    (r : Region) (cb : Callback)
    (hc : pointerEventList.contains t = true)
    (hnd : (findAllActiveEvents active (pointerEventMap t)).Nodup)
    (hr : ∀ p ∈ m, p.1 ≠ r) :
    releasePointerEvent active
      (m ++ [(r, ⟨r, (findAllActiveEvents active (pointerEventMap t)).map
        (fun ty => (ty, [cb])), none⟩)]) t r none = Except.ok m := by
  unfold releasePointerEvent
  rw [hc, if_neg (by simp)]
  dsimp only
  rw [mapGet_append_fresh m r _ hr]
  dsimp only
  rw [relFold_clears cb (findAllActiveEvents active (pointerEventMap t))
      ⟨r, (findAllActiveEvents active (pointerEventMap t)).map (fun ty => (ty, [cb])),
        none⟩ hnd rfl]
  dsimp only
  simp only [List.length_nil]
  rw [if_pos trivial]
  rw [mapDelete_append_fresh m r _ hr]

/-- C10.  `registerPointerEvent` followed by `releasePointerEvent` (same event type,
no other registrations on that region) removes the region entirely from the handler
map, restoring the map exactly; register throws for an event type outside the
supported pointer event list and for an undefined region; and dispatch over a map in
which the region (by id) has no entry invokes no callback for it. -/
theorem register_release_roundtrip (active : List String) (m : HandlerMap) (t : String)
    (r : Region) (cb : Callback)
    (ht : t ∈ pointerEventList) (hr : ∀ p ∈ m, p.1 ≠ r) :
    (∃ m1, registerPointerEvent active m t (some r) cb = Except.ok m1 ∧
      releasePointerEvent active m1 t r none = Except.ok m ∧
      mapHas m1 r = true) ∧
    (registerPointerEvent active m t none cb =
      Except.error "registerPointerEvent: region is undefined") ∧
    (∀ t2 : String, pointerEventList.contains t2 = false →
      registerPointerEvent active m t2 (some r) cb =
        Except.error ("invalid event type : " ++ t2)) ∧
    ((∀ p ∈ m, p.2.region.rid ≠ r.rid) →
      ∀ (retrieved : List Region) (viewport : Region) (lastTs : ℚ) (handled : Bool)
        (e : PEvent) (c : ℕ) (co : Bool),
        DEv.invoke r.rid c co ∉
          (dispatchOne active retrieved viewport ⟨lastTs, m⟩ handled e).2.1) := by
  have hc : pointerEventList.contains t = true := by simpa using ht
  have hnd : (findAllActiveEvents active (pointerEventMap t)).Nodup := by
    have hfam : (pointerEventMap t).Nodup := by
      simp only [pointerEventList, List.mem_cons, List.not_mem_nil, or_false] at ht
      rcases ht with rfl | rfl | rfl | rfl | rfl | rfl | rfl | rfl <;> decide
    exact List.Nodup.filter _ hfam
  refine ⟨⟨_, register_ok_form active m t r cb hc hnd hr,
      release_ok_form active m t r cb hc hnd hr, mapHas_append_true m r _⟩, ?_, ?_, ?_⟩
  · unfold registerPointerEvent
    rw [hc, if_neg (by simp)]
  · intro t2 h2
    unfold registerPointerEvent
    rw [h2, if_pos rfl]
  · intro hrid retrieved viewport lastTs handled e c co hmem
    obtain ⟨q, hq, hq1, _⟩ :=
      dispatchOne_sound active retrieved viewport ⟨lastTs, m⟩ handled e r.rid c co hmem
    exact hrid q hq hq1

/-- A fresh region for the C10 witness. -/
def demoRegionB : Region := ⟨11, false, false, ⟨0, 0, 2, 2⟩⟩

/-- Witness for C10: registering then releasing `pointerdown` on a fresh region over
the empty map restores the empty map, with the region present in between. -/
theorem register_release_roundtrip_witness :
    ∃ m1, registerPointerEvent pointerEventList [] "pointerdown" (some demoRegionB)
        ⟨3, false⟩ = Except.ok m1 ∧
      releasePointerEvent pointerEventList m1 "pointerdown" demoRegionB none =
        Except.ok [] ∧
      mapHas m1 demoRegionB = true :=
  (register_release_roundtrip pointerEventList [] "pointerdown" demoRegionB ⟨3, false⟩
    (by decide) (by simp)).1

end Melon
